import Mathlib

/-!
Shallow embedding of the tensor core of the mllm repository
(`src/Tensor.hpp` and `src/memory/SystemMemoryManager.cpp`) and proofs
about it.

Modelling conventions:
* C++ `int` values are modelled as `Int`; C++ `/` and `%` on `int`
  (truncating division) are `Int.tdiv` and `Int.tmod`.
* `std::vector<int>` is a `List Int`.  An access `v[i]` that is provably
  in bounds at every use site is modelled with `List.getD`; an access
  whose index can be out of range on reachable inputs is modelled with
  the fallible `vecGet` below (out-of-bounds reads are undefined
  behaviour in C++, so the model returns `none` there).
* Code paths guarded by a C `assert` are modelled as `Option`-returning
  functions: `none` means the assertion fails (the process aborts).
* Raw pointers are modelled by their address (`host_ptr : Int`, `0` for
  `nullptr`); `master_tensor_ != nullptr` is the flag `hasMaster`.
-/

set_option maxHeartbeats 1000000

namespace Mllm

/-- Element data type (`DataType` in `Types.hpp`, which is outside `src/`);
only the variants named in the sources/claims are modelled. -/
inductive DataType where
  | MLLM_TYPE_F32
  | MLLM_TYPE_F16
  | MLLM_TYPE_Q4_K
deriving DecidableEq, Repr

/-- Physical layout tag (`ChlType`): the nesting order of the axes in the
flat buffer. -/
inductive ChlType where
  | BSHD
  | BHDS
  | SBHD
  | BCTHW
  | BTHWC
deriving DecidableEq, Repr

/-- Logical axis selector (`Chl`), including the aggregation-routing
modes.  The spelling `CHANNLE` follows the source. -/
inductive Chl where
  | BATCH
  | HEAD
  | SEQUENCE
  | DIMENSION
  | CHANNLE
  | TIME
  | HEIGHT
  | WIDTH
  | THW
  | D_HD
  | HD
deriving DecidableEq, Repr

open ChlType Chl

/-- The state of a `mllm::Tensor` object (the fields of `Tensor.hpp`).
`aggregated_tensors_` is a vector of pointers to other tensors; only the
quantities of it that `checkDim` reads are kept, flattened into the three
fields `aggregated_tensors_len` (its size), `agg0_dimension` and
`agg0_head` (`aggregated_tensors_[0]->dimension()` / `->head()`).
The recursive data-access forwarding (`dataAt` etc.) is not modelled. -/
structure Tensor where
  dtype : DataType := .MLLM_TYPE_F32
  ctype : ChlType := BSHD
  host_ptr : Int := 0
  shape : List Int := []
  capacity : Int := 0
  count : Int := 0
  allocated : Int := 0
  transed : Bool := false
  shape_offset : List Int := []
  shape_master : List Int := []
  hasMaster : Bool := false
  undiffusion : Bool := false
  aggregated : Bool := false
  aggregated_dim : Chl := HEAD
  aggregated_dims : List Int := []
  aggregated_tensors_len : Int := 0
  agg0_dimension : Int := 0
  agg0_head : Int := 0
deriving DecidableEq, Repr

/-- The C++ constant `INT_MAX` used by the reshape overflow check. -/
def intMax : Int := 2147483647

/-- Fallible model of `std::vector<int>::operator[]`: `none` on an
out-of-bounds index (undefined behaviour in the source). -/
def vecGet (l : List Int) (i : Int) : Option Int :=
  if 0 ≤ i ∧ i < l.length then some (l.getD i.toNat 0) else none

namespace Tensor

/-- `Tensor::numAxes`: the rank, `shape_.size()`. -/
def numAxes (t : Tensor) : Int := t.shape.length

/-- `Tensor::canonicalAxisIndex`. -/
def canonicalAxisIndex (t : Tensor) (i : Int) : Int :=
  if i < 0 then i + t.numAxes else i

/-- The private `Tensor::shape(int)` accessor, `shape_[canonicalAxisIndex(index)]`;
every caller below reaches it only with an in-range canonical index. -/
def shapeAt (t : Tensor) (i : Int) : Int :=
  t.shape.getD (t.canonicalAxisIndex i).toNat 0

/-- `Tensor::legacyShape`: rank-checked shape lookup that returns 1 for an
index outside `[-numAxes, numAxes)`. -/
def legacyShape (t : Tensor) (i : Int) : Int :=
  if t.numAxes ≤ i ∨ i < -t.numAxes then 1 else t.shapeAt i

/-- `Tensor::batch()`. -/
def batch (t : Tensor) : Int :=
  if t.ctype = SBHD then t.legacyShape 1 else t.legacyShape 0

/-- `Tensor::head()`. -/
def head (t : Tensor) : Int :=
  match t.ctype with
  | BSHD => t.legacyShape 2
  | BHDS => t.legacyShape 1
  | SBHD => t.legacyShape 2
  | _ => -1

/-- `Tensor::sequence()`. -/
def sequence (t : Tensor) : Int :=
  match t.ctype with
  | BSHD => t.legacyShape 1
  | BHDS => t.legacyShape 3
  | SBHD => t.legacyShape 0
  | _ => -1

/-- `Tensor::dimension()`. -/
def dimension (t : Tensor) : Int :=
  match t.ctype with
  | BSHD => t.legacyShape 3
  | BHDS => t.legacyShape 2
  | SBHD => t.legacyShape 3
  | _ => -1

/-- `Tensor::channel()`; its `assert` restricts callers to the 5-axis tags,
for which the `default` arm below is unreachable. -/
def channel (t : Tensor) : Int :=
  match t.ctype with
  | BCTHW => t.legacyShape 1
  | BTHWC => t.legacyShape 4
  | _ => -1

/-- `Tensor::time()` (same assert discipline as `channel`). -/
def time (t : Tensor) : Int :=
  match t.ctype with
  | BCTHW => t.legacyShape 2
  | BTHWC => t.legacyShape 1
  | _ => -1

/-- `Tensor::height()` (same assert discipline as `channel`). -/
def height (t : Tensor) : Int :=
  match t.ctype with
  | BCTHW => t.legacyShape 3
  | BTHWC => t.legacyShape 2
  | _ => -1

/-- `Tensor::width()` (same assert discipline as `channel`). -/
def width (t : Tensor) : Int :=
  match t.ctype with
  | BCTHW => t.legacyShape 4
  | BTHWC => t.legacyShape 3
  | _ => -1

end Tensor

/-- The loop body of the private `Tensor::reshape(const vector<int>&)`:
checks `shape[i] >= 0` and, when the running product `count_` is nonzero,
the overflow guard `shape[i] <= INT_MAX / count_`, multiplying the sizes
up.  `none` models an assertion failure. -/
def reshapeLoop : List Int → Int → Option Int
  | [], c => some c
  | x :: xs, c =>
    if 0 ≤ x then
      if c ≠ 0 then
        if x ≤ intMax.tdiv c then reshapeLoop xs (c * x) else none
      else reshapeLoop xs (c * x)
    else none

/-- The private `Tensor::reshape(const vector<int> &shape)` (the asserts
become `none`): recomputes `count_`, installs the new `shape_`, and grows
`capacity_` exactly when the new count exceeds it, returning that signal. -/
def reshapeVec (shape : List Int) (t : Tensor) : Option (Bool × Tensor) :=
  if shape.length ≤ 32 then
    match reshapeLoop shape 1 with
    | none => none
    | some c =>
      if c > t.capacity then
        some (true, { t with count := c, shape := shape, capacity := c })
      else
        some (false, { t with count := c, shape := shape })
  else none

/-- The physical storage order of the four logical extents
`(batch, head, sequence, dimension)` under a 4-axis layout tag, as fixed
by the accessors `batch()/head()/sequence()/dimension()` in the source. -/
def physShape (c : ChlType) (b h s d : Int) : List Int :=
  match c with
  | BSHD => [b, s, h, d]
  | BHDS => [b, h, d, s]
  | SBHD => [s, b, h, d]
  | _ => []

/-- Modelled from the spec: `bool Tensor::reshape(int batch, int head,
int sequence, int dimension)` is declared in `Tensor.hpp` but defined
outside `src/`.  Per the spec's layout table and the accessor functions,
it stores the four extents in the current tag's physical nesting order
through the private vector `reshape`; it is only specified for the
4-axis tags. -/
def reshape4 (t : Tensor) (b h s d : Int) : Option (Bool × Tensor) :=
  if t.ctype = BSHD ∨ t.ctype = BHDS ∨ t.ctype = SBHD then
    reshapeVec (physShape t.ctype b h s d) t
  else none

/-- Modelled from the spec: `bool Tensor::reshape(int, int, int, int, int)`
(5-axis) is declared in `Tensor.hpp` but defined outside `src/`.  Per the
spec's layout table and the 5-axis accessors it stores
`(batch, channel, time, height, width)` in the tag's physical order. -/
def reshape5 (t : Tensor) (b c ti h w : Int) : Option (Bool × Tensor) :=
  match t.ctype with
  | BCTHW => reshapeVec [b, c, ti, h, w] t
  | BTHWC => reshapeVec [b, ti, h, w, c] t
  | _ => none

namespace Tensor

/-- `Tensor::transShape(dim_a, dim_b, undiffusion)`: the three supported
tag transitions; any other request falls through every branch and leaves
the tensor untouched. -/
def transShape (dim_a dim_b : Chl) (undiffusion : Bool) (t : Tensor) :
    Option Tensor :=
  if dim_a = SEQUENCE ∧ dim_b = DIMENSION ∧ t.ctype = BSHD then
    let b := t.batch
    let h := t.head
    let d := t.dimension
    let s := t.sequence
    match reshape4 { t with ctype := BHDS } b h s d with
    | none => none
    | some (_, t1) => some { t1 with transed := true, undiffusion := undiffusion }
  else if THW = dim_a ∧ dim_b = CHANNLE ∧ t.ctype = BCTHW then
    let b := t.batch
    let c := t.channel
    let ti := t.time
    let h := t.height
    let w := t.width
    match reshape5 { t with ctype := BTHWC } b c ti h w with
    | none => none
    | some (_, t1) => some { t1 with transed := true, undiffusion := undiffusion }
  else if dim_a = BATCH ∧ dim_b = SEQUENCE ∧ t.ctype = BSHD then
    let b := t.batch
    let h := t.head
    let d := t.dimension
    let s := t.sequence
    match reshape4 { t with ctype := SBHD } b h s d with
    | none => none
    | some (_, t1) => some { t1 with transed := true, undiffusion := undiffusion }
  else some t

/-- `Tensor::free()`.  The first component records whether
`backend_->free(host_ptr_)` was called (the owned buffer was released). -/
def free (t : Tensor) : Bool × Tensor :=
  if t.aggregated then (false, t)
  else if t.host_ptr ≠ 0 ∧ t.hasMaster = false then
    (true, { t with host_ptr := 0, allocated := 0 })
  else (false, t)

/-- `Tensor::~Tensor()` (the destructor body).  The first component
records whether the buffer was released. -/
def destruct (t : Tensor) : Bool × Tensor :=
  if t.host_ptr ≠ 0 ∧ t.hasMaster = false ∧ t.aggregated = false then
    (true, { t with host_ptr := 0 })
  else (false, t)

/-- `Tensor::offset(b, h, s, d)`.  With a 4-entry offset and master-shape
vector each index is shifted and wrapped modulo the master extent (C++
`%`, i.e. `Int.tmod`) and the master's physical-nesting formula is used;
otherwise the tensor's own `shape_` is used directly.  `shape_` /
`shape_master_` reads are in bounds at every use below (4-entry vectors),
so `List.getD` models them. -/
def offset (t : Tensor) (b h s d : Int) : Int :=
  if t.shape_offset.length = 4 ∧ t.shape_master.length = 4 then
    let base_batch := t.shape_master.getD 0 0
    let base_head := t.shape_master.getD 1 0
    let base_sequence := t.shape_master.getD 2 0
    let base_dimension := t.shape_master.getD 3 0
    let b1 := (b + t.shape_offset.getD 0 0).tmod base_batch
    let h1 := (h + t.shape_offset.getD 1 0).tmod base_head
    let s1 := (s + t.shape_offset.getD 2 0).tmod base_sequence
    let d1 := (d + t.shape_offset.getD 3 0).tmod base_dimension
    match t.ctype with
    | BSHD => ((b1 * base_sequence + s1) * base_head + h1) * base_dimension + d1
    | BHDS => ((b1 * base_head + h1) * base_dimension + d1) * base_sequence + s1
    | SBHD => ((s1 * base_batch + b1) * base_head + h1) * base_dimension + d1
    | _ => -1
  else
    match t.ctype with
    | BSHD => ((b * t.shape.getD 1 0 + s) * t.shape.getD 2 0 + h) * t.shape.getD 3 0 + d
    | BHDS => ((b * t.shape.getD 1 0 + h) * t.shape.getD 2 0 + d) * t.shape.getD 3 0 + s
    | SBHD => ((s * t.shape.getD 1 0 + b) * t.shape.getD 2 0 + h) * t.shape.getD 3 0 + d
    | _ => -1

/-- `Tensor::checkDim(b, h, s, d)`: routes an index on an aggregated
tensor to the owning constituent, adjusting the index along the
aggregation axis in place.  The result is
`(tensor_id, b, h, s, d)` after the call; vector reads go through
`vecGet` because `aggregated_dims_[tensor_id - 1]` is reached with
`tensor_id = 0` (index `-1`).  In the `D_HD`/`HD` arms
`aggregated_tensors_[0]` is an out-of-bounds read when the constituent
list is empty, hence the emptiness guards. -/
def checkDim (t : Tensor) (b h s d : Int) :
    Option (Int × Int × Int × Int × Int) :=
  if t.aggregated = false then some (-1, b, h, s, d)
  else
    match t.aggregated_dim with
    | HEAD =>
      let tid : Int :=
        match t.aggregated_dims.findIdx? (fun v => h < v) with
        | some a => a
        | none => -1
      match vecGet t.aggregated_dims (tid - 1) with
      | none => none
      | some p => some (tid, b, h - p, s, d)
    | SEQUENCE =>
      let tid : Int :=
        match t.aggregated_dims.findIdx? (fun v => s < v) with
        | some a => a
        | none => -1
      match vecGet t.aggregated_dims (tid - 1) with
      | none => none
      | some p => some (tid, b, h, s - p, d)
    | DIMENSION =>
      let tid : Int :=
        match t.aggregated_dims.findIdx? (fun v => d < v) with
        | some a => a
        | none => -1
      match vecGet t.aggregated_dims (tid - 1) with
      | none => none
      | some p => some (tid, b, h, s, d - p)
    | D_HD =>
      if t.aggregated_tensors_len = 0 then none
      else
        let dim_size := t.agg0_dimension
        let h1 := d.tdiv (dim_size * t.aggregated_tensors_len)
        let d_m := d.tmod (dim_size * t.aggregated_tensors_len)
        some (d_m.tdiv dim_size, b, h1, s, d_m.tmod dim_size)
    | HD =>
      if t.aggregated_tensors_len = 0 then none
      else
        let orin_d := d
        let dim_size := t.agg0_dimension
        let head_size := t.agg0_head
        let tid := orin_d.tdiv (dim_size * head_size)
        some (tid, b, (orin_d - tid * (dim_size * head_size)).tdiv dim_size, s,
          (orin_d - tid * (dim_size * head_size)).tmod dim_size)
    | _ => some (-1, b, h, s, d)

end Tensor

/-- The tag-reconciliation step of `Tensor::deepCopyFrom` (lines 564-580):
after `setMasterTensor(source)`, if this tensor's tag is 4-axis, differs
from the master's, and `undiffusion_` is false, the side that has not
been transposed adopts the other's tag and is reshaped with its own
logical extents (read under its old tag).  Returns the updated
`(child, master)` pair. -/
def reconcileCtype (child master : Tensor) : Option (Tensor × Tensor) :=
  if child.ctype ≠ BCTHW ∧ child.ctype ≠ BTHWC ∧ child.ctype ≠ master.ctype ∧
      child.undiffusion = false then
    if child.transed then
      let b := master.batch
      let h := master.head
      let d := master.dimension
      let s := master.sequence
      match reshape4 { master with ctype := child.ctype } b h s d with
      | none => none
      | some (_, m1) => some (child, m1)
    else
      let b := child.batch
      let h := child.head
      let d := child.dimension
      let s := child.sequence
      match reshape4 { child with ctype := master.ctype } b h s d with
      | none => none
      | some (_, c1) => some (c1, master)
  else some (child, master)

/-- `Tensor::deepCopyFrom(source, copyshape, shape_offset, head_rep)` for
a binding tensor with no registered children of its own, returning the
updated `(child, master)` pair.  (The loop over `child_tensors_` at lines
601-608 rebinds pre-existing child views of this tensor through their
pointers; it is a no-op for a tensor with an empty child list, the case
the claims address.)  `source->addChildTensor(this)` only touches the
master's child list and is likewise outside the modelled state. -/
def deepCopyFrom (child master : Tensor) (copyshape : Bool)
    (shape_offset : List Int) (head_rep : Int) : Option (Tensor × Tensor) :=
  let copyshape := if shape_offset ≠ [] then false else copyshape
  let child := { child with hasMaster := true }
  match reconcileCtype child master with
  | none => none
  | some (c, m) =>
    let c := { c with
      host_ptr := m.host_ptr
      capacity := m.capacity
      count := m.count
      shape := if copyshape then m.shape else c.shape
      allocated := m.allocated
      dtype := m.dtype }
    let c := if shape_offset ≠ [] then
        { c with
          shape_offset := shape_offset
          shape_master :=
            if m.head ≠ c.head then
              if c.head = 1 ∧ head_rep = 1 then
                [m.batch, c.head, m.sequence, (m.dimension * m.head).tdiv c.head]
              else if c.head = 1 ∧ head_rep > 1 then
                [m.batch, c.head, m.sequence, (m.dimension * m.head).tdiv head_rep]
              else [m.batch, m.head, m.sequence, m.dimension]
            else [m.batch, m.head, m.sequence, m.dimension] }
      else c
    some (c, m)

/-- `sizeof(void*)` on the 64-bit platforms the allocator targets. -/
def ptrBytes : Nat := 8

/-- The byte count `SystemMemoryManager::alloc` requests from `malloc`:
`size + sizeof(void*) + alignment - 1`. -/
def sysAllocRequest (size alignment : Nat) : Nat :=
  size + ptrBytes + (alignment - 1)

/-- The aligned pointer computed by `SystemMemoryManager::alloc` from the
`malloc` result `origin`:
`((size_t)origin + sizeof(void*) + alignment - 1) & ~(alignment - 1)`,
in 64-bit `size_t` arithmetic (`~(alignment - 1)` is `2^64 - alignment`
for `alignment ≥ 1`). -/
def sysAlignedPtr (origin alignment : Nat) : Nat :=
  ((origin + ptrBytes + (alignment - 1)) % 2 ^ 64) &&& (2 ^ 64 - alignment)

/-- The store `aligned[-1] = origin` performed by
`SystemMemoryManager::alloc`: the word immediately before the returned
aligned region holds the original `malloc` pointer.  Memory is modelled
as a map from a word's byte address to its contents. -/
def sysAllocStore (origin alignment : Nat) (mem : Nat → Nat) : Nat → Nat :=
  fun a => if a = sysAlignedPtr origin alignment - ptrBytes then origin else mem a

/-- `SystemMemoryManager::free(ptr)`: reads `((void**)ptr)[-1]` and passes
that recovered pointer to `::free`; the result is the address given to
`::free`. -/
def sysFree (mem : Nat → Nat) (p : Nat) : Nat := mem (p - ptrBytes)

/-- The aggregate of the spec's routing example: constituents of sequence
sizes `[2, 3, 1]` concatenated along `SEQUENCE`, cumulative table
`[2, 5, 6]`. -/
def aggSeqExample : Tensor :=
  { ctype := BSHD
    shape := [1, 6, 1, 1]
    count := 6
    aggregated := true
    aggregated_dim := SEQUENCE
    aggregated_dims := [2, 5, 6]
    aggregated_tensors_len := 3 }

/-- A transposed `BHDS` child view used as a binding example. -/
def childBHDSTransed : Tensor :=
  { ctype := BHDS, shape := [1, 1, 1, 1], count := 1, capacity := 1, transed := true }

/-- A unit `BSHD` master tensor. -/
def masterBSHDUnit : Tensor :=
  { ctype := BSHD, shape := [1, 1, 1, 1], count := 1, capacity := 1 }

/-- `masterBSHDUnit` after adopting the transposed child's `BHDS` tag. -/
def masterBSHDUnitReconciled : Tensor :=
  { ctype := BHDS, shape := [1, 1, 1, 1], count := 1, capacity := 1 }

/-- A child that binds with an explicit offset window. -/
def childOffsetEx : Tensor := { ctype := BSHD, shape := [1, 1, 1, 2] }

/-- The master for `childOffsetEx`. -/
def masterOffsetEx : Tensor :=
  { ctype := BSHD, shape := [1, 1, 1, 3], host_ptr := 7, capacity := 3, count := 3,
    allocated := 1 }

/-- `childOffsetEx` after `deepCopyFrom(masterOffsetEx, true, [0,0,1,0], 1)`. -/
def childOffsetExResult : Tensor :=
  { ctype := BSHD, host_ptr := 7, shape := [1, 1, 1, 2], capacity := 3, count := 3,
    allocated := 1, shape_offset := [0, 0, 1, 0], shape_master := [1, 1, 1, 3],
    hasMaster := true }

/-! ## Theorems -/

theorem legacyShape_of_le (t : Tensor) (i : Int) (h : t.numAxes ≤ i) :
    t.legacyShape i = 1 := by
  unfold Tensor.legacyShape
  rw [if_pos (Or.inl h)]

/-- C4: `transShape` on any axis pair other than the three supported
combinations — `(SEQUENCE, DIMENSION)` on a `BSHD` tensor, `(THW, CHANNLE)`
on a `BCTHW` tensor, `(BATCH, SEQUENCE)` on a `BSHD` tensor — is a no-op:
the tensor (in particular `ctype_`, `shape_`, `count_`, `capacity_`,
`transed_` and `undiffusion_`) is returned entirely unchanged and no
error is signalled. -/
theorem transShape_unsupported_noop (t : Tensor) (dim_a dim_b : Chl) (u : Bool)
    (hns : ¬((dim_a = SEQUENCE ∧ dim_b = DIMENSION ∧ t.ctype = BSHD) ∨
        (dim_a = THW ∧ dim_b = CHANNLE ∧ t.ctype = BCTHW) ∨
        (dim_a = BATCH ∧ dim_b = SEQUENCE ∧ t.ctype = BSHD))) :
    t.transShape dim_a dim_b u = some t := by
  unfold Tensor.transShape
  split_ifs with h1 h2 h3
  · exact absurd (Or.inl h1) hns
  · exact absurd (Or.inr (Or.inl ⟨h2.1.symm, h2.2⟩)) hns
  · exact absurd (Or.inr (Or.inr h3)) hns
  · rfl

/-- Witness for C4: swapping `HEAD` and `DIMENSION` on a `BSHD` tensor is
not one of the supported combinations and leaves the tensor unchanged. -/
theorem transShape_unsupported_noop_witness :
    Tensor.transShape HEAD DIMENSION false
        { ctype := BSHD, shape := [1, 2, 3, 4], count := 24, capacity := 24 } =
      some { ctype := BSHD, shape := [1, 2, 3, 4], count := 24, capacity := 24 } :=
  transShape_unsupported_noop _ _ _ _ (by decide)

/-- C6: `free()` and the destructor release the buffer iff the host
pointer is non-null, there is no master tensor and the tensor is not
aggregated; on a Child (master set) or an Aggregate both are no-ops that
leave the tensor untouched; and a second `free()` is always a safe no-op
because the first call nulls the host pointer. -/
theorem free_releases_iff (t : Tensor) :
    ((t.free).1 = true ↔ t.host_ptr ≠ 0 ∧ t.hasMaster = false ∧ t.aggregated = false) ∧
    ((t.destruct).1 = true ↔ t.host_ptr ≠ 0 ∧ t.hasMaster = false ∧ t.aggregated = false) ∧
    (t.hasMaster = true ∨ t.aggregated = true → t.free = (false, t) ∧ t.destruct = (false, t)) ∧
    (t.free.2.free = (false, t.free.2)) := by
  unfold Tensor.free Tensor.destruct
  rcases t with ⟨dt, ct, hp, sh, cap, cnt, al, tr, so, sm, hm, ud, ag, ad, ads, atl, a0d, a0h⟩
  cases hm <;> cases ag <;> by_cases hp0 : hp = 0 <;> simp_all

/-- Witness for C6: a Plain tensor with a live buffer releases it on
`free()`. -/
theorem free_releases_iff_witness :
    (Tensor.free { host_ptr := 64, allocated := 1 }).1 = true :=
  (free_releases_iff _).1.mpr (by decide)

/-- C10: `legacyShape(i)` returns 1 whenever `i ≥ numAxes()` or
`i < -numAxes()` instead of reading `shape_` out of bounds, and
consequently every logical accessor (`batch`, `head`, `sequence`,
`dimension`, `channel`, `time`, `height`, `width`) returns 1 for any
axis whose physical slot a lower-rank tensor does not have. -/
theorem legacyShape_out_of_range (t : Tensor) :
    (∀ i : Int, t.numAxes ≤ i ∨ i < -t.numAxes → t.legacyShape i = 1) ∧
    (t.ctype = BSHD →
      (t.numAxes ≤ 0 → t.batch = 1) ∧ (t.numAxes ≤ 2 → t.head = 1) ∧
      (t.numAxes ≤ 1 → t.sequence = 1) ∧ (t.numAxes ≤ 3 → t.dimension = 1)) ∧
    (t.ctype = BHDS →
      (t.numAxes ≤ 0 → t.batch = 1) ∧ (t.numAxes ≤ 1 → t.head = 1) ∧
      (t.numAxes ≤ 3 → t.sequence = 1) ∧ (t.numAxes ≤ 2 → t.dimension = 1)) ∧
    (t.ctype = SBHD →
      (t.numAxes ≤ 1 → t.batch = 1) ∧ (t.numAxes ≤ 2 → t.head = 1) ∧
      (t.numAxes ≤ 0 → t.sequence = 1) ∧ (t.numAxes ≤ 3 → t.dimension = 1)) ∧
    (t.ctype = BCTHW →
      (t.numAxes ≤ 0 → t.batch = 1) ∧ (t.numAxes ≤ 1 → t.channel = 1) ∧
      (t.numAxes ≤ 2 → t.time = 1) ∧ (t.numAxes ≤ 3 → t.height = 1) ∧
      (t.numAxes ≤ 4 → t.width = 1)) ∧
    (t.ctype = BTHWC →
      (t.numAxes ≤ 0 → t.batch = 1) ∧ (t.numAxes ≤ 4 → t.channel = 1) ∧
      (t.numAxes ≤ 1 → t.time = 1) ∧ (t.numAxes ≤ 2 → t.height = 1) ∧
      (t.numAxes ≤ 3 → t.width = 1)) := by
  have hA : ∀ i : Int, t.numAxes ≤ i ∨ i < -t.numAxes → t.legacyShape i = 1 := by
    intro i hi
    unfold Tensor.legacyShape
    rw [if_pos hi]
  have hB : ∀ i : Int, t.numAxes ≤ i → t.legacyShape i = 1 := fun i h => hA i (Or.inl h)
  refine ⟨hA, fun hc => ?_, fun hc => ?_, fun hc => ?_, fun hc => ?_, fun hc => ?_⟩
  all_goals
    simp only [Tensor.batch, Tensor.head, Tensor.sequence, Tensor.dimension,
      Tensor.channel, Tensor.time, Tensor.height, Tensor.width, hc]
    repeat' apply And.intro
  all_goals intro h
  all_goals exact hB _ h

/-- Witness for C10: a rank-2 `BSHD` tensor reports `head = 1` and
`dimension = 1`, and `legacyShape` at index 7 is 1. -/
theorem legacyShape_out_of_range_witness :
    Tensor.legacyShape { ctype := BSHD, shape := [4, 5] } 7 = 1 :=
  (legacyShape_out_of_range { ctype := BSHD, shape := [4, 5] }).1 7 (by decide)

/-- C1 (evidence): on the spec's own routing example (cumulative table
`[2, 5, 6]` along `SEQUENCE`), `checkDim` routes the in-range indices 2-5
by prefix-sum search with local index "requested minus previous entry",
but for the indices 0 and 1 owned by the first constituent it reads
`aggregated_dims_[-1]` — an out-of-bounds vector access (undefined
behaviour, `none` in this model) — instead of treating the slot `-1`
entry as 0. -/
theorem checkDim_first_slot_oob :
    Tensor.checkDim aggSeqExample 0 0 0 0 = none ∧
    Tensor.checkDim aggSeqExample 0 0 1 0 = none ∧
    Tensor.checkDim aggSeqExample 0 0 2 0 = some (1, 0, 0, 0, 0) ∧
    Tensor.checkDim aggSeqExample 0 0 3 0 = some (1, 0, 0, 1, 0) ∧
    Tensor.checkDim aggSeqExample 0 0 4 0 = some (1, 0, 0, 2, 0) ∧
    Tensor.checkDim aggSeqExample 0 0 5 0 = some (2, 0, 0, 0, 0) := by
  refine ⟨?_, ?_, ?_, ?_, ?_, ?_⟩ <;> decide

theorem reshapeLoop_result :
    ∀ (l : List Int) (c r : Int), reshapeLoop l c = some r → r = l.foldl (· * ·) c := by
  intro l
  induction l with
  | nil =>
    intro c r hsome
    simpa [reshapeLoop] using hsome.symm
  | cons x xs ih =>
    intro c r hsome
    unfold reshapeLoop at hsome
    rw [List.foldl_cons]
    split_ifs at hsome
    all_goals exact ih _ _ hsome

theorem reshapeLoop_sound :
    ∀ (l : List Int) (c : Int), 0 ≤ c → (∀ x ∈ l, 0 ≤ x) →
      (∀ n : Nat, c * (l.take n).prod ≤ intMax) →
      reshapeLoop l c = some (l.foldl (· * ·) c) := by
  intro l
  induction l with
  | nil => intro c _ _ _; rfl
  | cons x xs ih =>
    intro c hc hx hov
    have hx0 : 0 ≤ x := hx x (List.mem_cons_self x xs)
    have hcx : c * x ≤ intMax := by simpa using hov 1
    have hrest : ∀ y ∈ xs, 0 ≤ y := fun y hy => hx y (List.mem_cons_of_mem _ hy)
    have hov2 : ∀ n : Nat, c * x * (xs.take n).prod ≤ intMax := by
      intro n
      have := hov (n + 1)
      simpa [List.take_succ_cons, mul_assoc] using this
    unfold reshapeLoop
    rw [if_pos hx0, List.foldl_cons]
    by_cases h0 : c = 0
    · rw [if_neg (by simp [h0])]
      exact ih (c * x) (mul_nonneg hc hx0) hrest hov2
    · have hcpos : 0 < c := lt_of_le_of_ne hc (Ne.symm h0)
      have hdiv : x ≤ intMax.tdiv c := by
        rw [Int.tdiv_eq_ediv (by norm_num [intMax]) hc]
        exact (Int.le_ediv_iff_mul_le hcpos).mpr (by rw [mul_comm]; exact hcx)
      rw [if_pos h0, if_pos hdiv]
      exact ih (c * x) (mul_nonneg hc hx0) hrest hov2

theorem reshapeVec_eq (t : Tensor) (shape : List Int)
    (hlen : shape.length ≤ 32) (hx : ∀ x ∈ shape, 0 ≤ x)
    (hov : ∀ n : Nat, n ≤ shape.length → (shape.take n).prod ≤ intMax) :
    reshapeVec shape t =
      some (decide (t.capacity < shape.prod),
        { t with count := shape.prod, shape := shape,
                 capacity := max t.capacity shape.prod }) := by
  have hov1 : ∀ n : Nat, (1 : Int) * (shape.take n).prod ≤ intMax := by
    intro n
    rcases le_or_lt n shape.length with h | h
    · simpa using hov n h
    · rw [List.take_of_length_le (le_of_lt h)]
      simpa using hov shape.length le_rfl
  have hl := reshapeLoop_sound shape 1 (by norm_num) hx hov1
  have hfold : shape.foldl (· * ·) 1 = shape.prod := List.prod_eq_foldl.symm
  unfold reshapeVec
  rw [if_pos hlen, hl, hfold]
  dsimp only
  split_ifs with hgt
  · rw [max_eq_right (le_of_lt hgt)]
    simp [hgt]
  · rw [max_eq_left (le_of_not_lt hgt)]
    simp [hgt]

/-- C5: a `reshape` call with non-negative axis sizes whose running
product stays within the signed-integer range sets `count` to the
product of the sizes, never shrinks `capacity` (it becomes the maximum of
the old capacity and the new count), and returns true exactly when the
new count exceeds the prior capacity; consequently reshaping to a
smaller count and regrowing within the previous high-water mark returns
false both times and leaves the capacity and the buffer pointer
untouched. -/
theorem reshape_count_capacity (t : Tensor) (shape : List Int)
    (hlen : shape.length ≤ 32) (hx : ∀ x ∈ shape, 0 ≤ x)
    (hov : ∀ n : Nat, n ≤ shape.length → (shape.take n).prod ≤ intMax) :
    reshapeVec shape t =
      some (decide (t.capacity < shape.prod),
        { t with count := shape.prod, shape := shape,
                 capacity := max t.capacity shape.prod }) ∧
    (∀ shape2 : List Int, shape2.length ≤ 32 → (∀ x ∈ shape2, 0 ≤ x) →
      (∀ n : Nat, n ≤ shape2.length → (shape2.take n).prod ≤ intMax) →
      shape.prod ≤ t.capacity → shape2.prod ≤ t.capacity →
      ∃ t1 t2 : Tensor,
        reshapeVec shape t = some (false, t1) ∧
        reshapeVec shape2 t1 = some (false, t2) ∧
        t1.capacity = t.capacity ∧ t2.capacity = t.capacity ∧
        t1.host_ptr = t.host_ptr ∧ t2.host_ptr = t.host_ptr) := by
  refine ⟨reshapeVec_eq t shape hlen hx hov, ?_⟩
  intro shape2 hlen2 hx2 hov2 hle1 hle2
  have ht1 : reshapeVec shape t =
      some (false, { t with count := shape.prod, shape := shape, capacity := t.capacity }) := by
    rw [reshapeVec_eq t shape hlen hx hov, max_eq_left hle1]
    simp [not_lt.mpr hle1]
  have ht2 : reshapeVec shape2
        { t with count := shape.prod, shape := shape, capacity := t.capacity } =
      some (false, { t with count := shape2.prod, shape := shape2, capacity := t.capacity }) := by
    rw [reshapeVec_eq _ shape2 hlen2 hx2 hov2]
    simp [not_lt.mpr hle2, max_eq_left hle2]
  exact ⟨_, _, ht1, ht2, rfl, rfl, rfl, rfl⟩

theorem tmod_add_extent (x o m : Int) (hx : 0 ≤ x) (ho : 0 ≤ o) (hm : 0 < m) :
    (x + m + o).tmod m = (x + o).tmod m := by
  rw [Int.tmod_eq_emod (by linarith) (le_of_lt hm),
    Int.tmod_eq_emod (by linarith) (le_of_lt hm),
    show x + m + o = x + o + m * 1 by ring, Int.add_mul_emod_self_left]

/-- C3: for a Child tensor with a 4-entry offset vector and 4-entry
master shape (all master extents positive), the offset function is
toroidal: adding the master's extent along any single axis to a
(non-negative) index leaves the computed offset unchanged, because each
incoming index is wrapped modulo the master's axis extent before the
master's physical-nesting formula is applied. -/
theorem offset_toroidal (t : Tensor) (o0 o1 o2 o3 m0 m1 m2 m3 b h s d : Int)
    (hoff : t.shape_offset = [o0, o1, o2, o3])
    (hmas : t.shape_master = [m0, m1, m2, m3])
    (htag : t.ctype = BSHD ∨ t.ctype = BHDS ∨ t.ctype = SBHD)
    (hm0 : 0 < m0) (hm1 : 0 < m1) (hm2 : 0 < m2) (hm3 : 0 < m3)
    (ho0 : 0 ≤ o0) (ho1 : 0 ≤ o1) (ho2 : 0 ≤ o2) (ho3 : 0 ≤ o3)
    (hb : 0 ≤ b) (hh : 0 ≤ h) (hs : 0 ≤ s) (hd : 0 ≤ d) :
    t.offset (b + m0) h s d = t.offset b h s d ∧
    t.offset b (h + m1) s d = t.offset b h s d ∧
    t.offset b h (s + m2) d = t.offset b h s d ∧
    t.offset b h s (d + m3) = t.offset b h s d := by
  refine ⟨?_, ?_, ?_, ?_⟩
  all_goals
    simp only [Tensor.offset, hoff, hmas, List.length_cons, List.length_nil,
      List.getD_cons_zero, List.getD_cons_succ]
    norm_num
    rcases htag with hc | hc | hc <;>
      simp only [hc, tmod_add_extent b o0 m0 hb ho0 hm0,
        tmod_add_extent h o1 m1 hh ho1 hm1, tmod_add_extent s o2 m2 hs ho2 hm2,
        tmod_add_extent d o3 m3 hd ho3 hm3]

/-- Witness for C3: a concrete windowed Child wraps around along each
axis. -/
theorem offset_toroidal_witness :
    Tensor.offset
        { ctype := BSHD, shape := [1, 2, 2, 3], shape_offset := [0, 0, 1, 0],
          shape_master := [1, 2, 4, 3] } (0 + 1) 1 2 2 =
      Tensor.offset
        { ctype := BSHD, shape := [1, 2, 2, 3], shape_offset := [0, 0, 1, 0],
          shape_master := [1, 2, 4, 3] } 0 1 2 2 :=
  (offset_toroidal _ 0 0 1 0 1 2 4 3 0 1 2 2 rfl rfl (Or.inl rfl)
    (by decide) (by decide) (by decide) (by decide) (by decide) (by decide)
    (by decide) (by decide) (by decide) (by decide) (by decide) (by decide)).1

/-- Witness for C5: reshaping an empty tensor to `[2, 3]` requires a
reallocation (count 6 exceeds capacity 0) and grows the capacity to 6. -/
theorem reshape_count_capacity_witness :
    reshapeVec [2, 3] {} = some (true, { count := 6, shape := [2, 3], capacity := 6 }) :=
  ((reshape_count_capacity {} [2, 3] (by decide) (by decide) (by decide)).1).trans (by decide)

theorem chlType_resolve (c : ChlType) (h1 : c ≠ BCTHW) (h2 : c ≠ BTHWC) :
    c = BSHD ∨ c = BHDS ∨ c = SBHD := by
  cases c <;> simp_all

theorem reshapeVec_some (shape : List Int) (t : Tensor) (p : Bool × Tensor)
    (h : reshapeVec shape t = some p) :
    p.2 = { t with count := shape.foldl (· * ·) 1, shape := shape,
                   capacity := max t.capacity (shape.foldl (· * ·) 1) } := by
  unfold reshapeVec at h
  split_ifs at h with hlen
  cases hloop : reshapeLoop shape 1 with
  | none => rw [hloop] at h; simp at h
  | some c =>
    rw [hloop] at h
    obtain rfl := reshapeLoop_result shape 1 c hloop
    dsimp only at h
    split_ifs at h with hgt
    · obtain rfl := (Option.some.inj h).symm
      simp [max_eq_right (le_of_lt hgt)]
    · obtain rfl := (Option.some.inj h).symm
      simp [max_eq_left (le_of_not_lt hgt)]

/-- C8: when a child binds to a master through `deepCopyFrom` with the
two layout tags different, neither 5-axis, and the child's undiffusion
flag false, the tag-reconciliation step rewrites exactly one side so the
tags agree: if the child has been transposed the master adopts the
child's tag and is reshaped to its own logical extents (read under its
old tag), otherwise the child adopts the master's tag and is reshaped to
its own logical extents; the other side is untouched. -/
theorem deepCopy_tag_reconcile (child master c1 m1 : Tensor)
    (hc5a : child.ctype ≠ BCTHW) (hc5b : child.ctype ≠ BTHWC)
    (hm5a : master.ctype ≠ BCTHW) (hm5b : master.ctype ≠ BTHWC)
    (hne : child.ctype ≠ master.ctype) (hu : child.undiffusion = false)
    (hrec : reconcileCtype child master = some (c1, m1)) :
    c1.ctype = m1.ctype ∧
    (child.transed = true →
      c1 = child ∧ m1.ctype = child.ctype ∧
      m1.shape = physShape child.ctype master.batch master.head master.sequence
        master.dimension ∧
      m1.host_ptr = master.host_ptr ∧ m1.transed = master.transed ∧
      m1.hasMaster = master.hasMaster) ∧
    (child.transed = false →
      m1 = master ∧ c1.ctype = master.ctype ∧
      c1.shape = physShape master.ctype child.batch child.head child.sequence
        child.dimension ∧
      c1.host_ptr = child.host_ptr ∧ c1.transed = child.transed ∧
      c1.hasMaster = child.hasMaster) := by
  unfold reconcileCtype at hrec
  rw [if_pos ⟨hc5a, hc5b, hne, hu⟩] at hrec
  cases htr : child.transed with
  | true =>
    rw [if_pos htr] at hrec
    dsimp only at hrec
    cases hr4 : reshape4 { master with ctype := child.ctype } master.batch master.head
        master.sequence master.dimension with
    | none => rw [hr4] at hrec; simp at hrec
    | some q =>
      obtain ⟨fl, t1⟩ := q
      rw [hr4] at hrec
      dsimp only at hrec
      obtain ⟨rfl, rfl⟩ := Prod.ext_iff.mp (Option.some.inj hrec)
      unfold reshape4 at hr4
      rw [if_pos (chlType_resolve child.ctype hc5a hc5b)] at hr4
      have hq : t1 = { master with
          ctype := child.ctype
          count := (physShape child.ctype master.batch master.head master.sequence
            master.dimension).foldl (· * ·) 1
          shape := physShape child.ctype master.batch master.head master.sequence
            master.dimension
          capacity := max master.capacity
            ((physShape child.ctype master.batch master.head master.sequence
              master.dimension).foldl (· * ·) 1) } :=
        reshapeVec_some _ _ _ hr4
      subst hq
      exact ⟨rfl, fun _ => ⟨rfl, rfl, rfl, rfl, rfl, rfl⟩, fun hf => by simp [htr] at hf⟩
  | false =>
    rw [if_neg (by simp [htr])] at hrec
    dsimp only at hrec
    cases hr4 : reshape4 { child with ctype := master.ctype } child.batch child.head
        child.sequence child.dimension with
    | none => rw [hr4] at hrec; simp at hrec
    | some q =>
      obtain ⟨fl, t1⟩ := q
      rw [hr4] at hrec
      dsimp only at hrec
      obtain ⟨rfl, rfl⟩ := Prod.ext_iff.mp (Option.some.inj hrec)
      unfold reshape4 at hr4
      rw [if_pos (chlType_resolve master.ctype hm5a hm5b)] at hr4
      have hq : t1 = { child with
          ctype := master.ctype
          count := (physShape master.ctype child.batch child.head child.sequence
            child.dimension).foldl (· * ·) 1
          shape := physShape master.ctype child.batch child.head child.sequence
            child.dimension
          capacity := max child.capacity
            ((physShape master.ctype child.batch child.head child.sequence
              child.dimension).foldl (· * ·) 1) } :=
        reshapeVec_some _ _ _ hr4
      subst hq
      exact ⟨rfl, fun ht => by simp [htr] at ht, fun _ => ⟨rfl, rfl, rfl, rfl, htr, rfl⟩⟩

/-- Witness for C8: a transposed `BHDS` child binding onto a `BSHD`
master makes the master adopt the `BHDS` tag. -/
theorem deepCopy_tag_reconcile_witness :
    childBHDSTransed.ctype = masterBSHDUnitReconciled.ctype :=
  (deepCopy_tag_reconcile childBHDSTransed masterBSHDUnit childBHDSTransed
    masterBSHDUnitReconciled
    (by decide) (by decide) (by decide) (by decide) (by decide) (by decide) (by decide)).1

theorem reconcileCtype_keeps_child (child master c m : Tensor)
    (hnr : child.ctype = master.ctype ∨ child.undiffusion = true ∨ child.transed = true ∨
      child.ctype = BCTHW ∨ child.ctype = BTHWC)
    (h : reconcileCtype child master = some (c, m)) : c = child := by
  unfold reconcileCtype at h
  by_cases hg : child.ctype ≠ BCTHW ∧ child.ctype ≠ BTHWC ∧ child.ctype ≠ master.ctype ∧
    child.undiffusion = false
  · rw [if_pos hg] at h
    obtain ⟨g1, g2, g3, g4⟩ := hg
    have htr : child.transed = true := by
      rcases hnr with hx | hx | hx | hx | hx
      · exact absurd hx g3
      · rw [hx] at g4; exact absurd g4 (by simp)
      · exact hx
      · exact absurd hx g1
      · exact absurd hx g2
    rw [if_pos htr] at h
    dsimp only at h
    cases hr4 : reshape4 { master with ctype := child.ctype } master.batch master.head
        master.sequence master.dimension with
    | none => rw [hr4] at h; simp at h
    | some q =>
      obtain ⟨fl, t1⟩ := q
      rw [hr4] at h
      dsimp only at h
      exact ((Prod.ext_iff.mp (Option.some.inj h)).1).symm
  · rw [if_neg hg] at h
    exact ((Prod.ext_iff.mp (Option.some.inj h)).1).symm

/-- C9 (amended): a `deepCopyFrom` call with a non-empty `shape_offset`
silently forces `copyshape` to false, so the child's `shape_` is never
overwritten with the master's shape and — provided the
tag-reconciliation step does not reshape the child (tags already equal,
or the child is undiffused, already transposed, or 5-axis) — the child's
`shape_` is left entirely unchanged, while the master's buffer pointer,
capacity, count, allocation flag and dtype are still copied onto the
child. -/
theorem deepCopy_offset_keeps_shape (child master c1 m1 : Tensor) (copyshape : Bool)
    (so : List Int) (head_rep : Int) (hso : so ≠ [])
    (hnr : child.ctype = master.ctype ∨ child.undiffusion = true ∨ child.transed = true ∨
      child.ctype = BCTHW ∨ child.ctype = BTHWC)
    (h : deepCopyFrom child master copyshape so head_rep = some (c1, m1)) :
    c1.shape = child.shape ∧ c1.host_ptr = m1.host_ptr ∧ c1.capacity = m1.capacity ∧
    c1.count = m1.count ∧ c1.allocated = m1.allocated ∧ c1.dtype = m1.dtype ∧
    c1.shape_offset = so := by
  unfold deepCopyFrom at h
  rw [if_pos hso] at h
  dsimp only at h
  cases hrec : reconcileCtype { child with hasMaster := true } master with
  | none => rw [hrec] at h; simp at h
  | some p =>
    obtain ⟨c, m⟩ := p
    rw [hrec] at h
    have hc : c = { child with hasMaster := true } :=
      reconcileCtype_keeps_child _ _ _ _ hnr hrec
    dsimp only at h
    rw [if_pos hso] at h
    simp only [Bool.false_eq_true, if_false] at h
    obtain ⟨rfl, rfl⟩ := Prod.ext_iff.mp (Option.some.inj h)
    subst hc
    exact ⟨rfl, rfl, rfl, rfl, rfl, rfl, rfl⟩

/-- Counterexample for C9 as stated: with a non-empty offset vector and
`copyshape = true`, a non-transposed `BHDS` child binding to a `BSHD`
master is reshaped by the tag reconciliation, so its `shape_` vector
does change (from `[1,1,1,2]` to `[1,2,1,1]`). -/
theorem deepCopy_offset_shape_changes :
    (deepCopyFrom { ctype := BHDS, shape := [1, 1, 1, 2] }
        { ctype := BSHD, shape := [1, 1, 1, 3] } true [0, 0, 0, 0] 1).map
      (fun p => p.1.shape) ≠ some [1, 1, 1, 2] := by
  decide

/-- Witness for C9 (amended): a same-tag child binding with an explicit
offset and `copyshape = true` keeps its own shape `[1,1,1,2]`. -/
theorem deepCopy_offset_keeps_shape_witness :
    childOffsetExResult.shape = childOffsetEx.shape :=
  (deepCopy_offset_keeps_shape childOffsetEx masterOffsetEx childOffsetExResult
    masterOffsetEx true [0, 0, 1, 0] 1 (by decide) (Or.inl rfl) (by decide)).1

theorem enc2_nonneg_lt (m n i j : Int) (hi0 : 0 ≤ i) (him : i < m) (hj0 : 0 ≤ j)
    (hjn : j < n) : 0 ≤ i * n + j ∧ i * n + j < m * n := by
  have hn : 0 < n := lt_of_le_of_lt hj0 hjn
  constructor
  · have := mul_nonneg hi0 (le_of_lt hn)
    linarith
  · have h1 : i + 1 ≤ m := Int.add_one_le_iff.mpr him
    have h2 : (i + 1) * n ≤ m * n := mul_le_mul_of_nonneg_right h1 (le_of_lt hn)
    nlinarith

theorem enc2_inj (n i j i' j' : Int) (hj0 : 0 ≤ j) (hjn : j < n) (hj0' : 0 ≤ j')
    (hjn' : j' < n) (heq : i * n + j = i' * n + j') : i = i' ∧ j = j' := by
  have hn : 0 < n := lt_of_le_of_lt hj0 hjn
  have hd : (i * n + j) / n = i := by
    rw [show i * n + j = j + n * i from by ring, Int.add_mul_ediv_left _ _ (ne_of_gt hn),
      Int.ediv_eq_zero_of_lt hj0 hjn, zero_add]
  have hd' : (i' * n + j') / n = i' := by
    rw [show i' * n + j' = j' + n * i' from by ring, Int.add_mul_ediv_left _ _ (ne_of_gt hn),
      Int.ediv_eq_zero_of_lt hj0' hjn', zero_add]
  have hi : i = i' := by rw [← hd, ← hd', heq]
  refine ⟨hi, ?_⟩
  rw [hi] at heq
  linarith

theorem enc2_decompose (m n o : Int) (hn : 0 < n) (ho0 : 0 ≤ o) (hom : o < m * n) :
    0 ≤ o / n ∧ o / n < m ∧ 0 ≤ o % n ∧ o % n < n ∧ (o / n) * n + o % n = o :=
  ⟨Int.ediv_nonneg ho0 (le_of_lt hn), (Int.ediv_lt_iff_lt_mul hn).mpr hom,
    Int.emod_nonneg o (ne_of_gt hn), Int.emod_lt_of_pos o hn, Int.ediv_add_emod' o n⟩

theorem enc4_bijOn (n0 n1 n2 n3 : Int) (h0 : 0 < n0) (h1 : 0 < n1) (h2 : 0 < n2)
    (h3 : 0 < n3) :
    Set.BijOn
      (fun q : Int × Int × Int × Int => ((q.1 * n1 + q.2.1) * n2 + q.2.2.1) * n3 + q.2.2.2)
      (Set.Ico 0 n0 ×ˢ Set.Ico 0 n1 ×ˢ Set.Ico 0 n2 ×ˢ Set.Ico 0 n3)
      (Set.Ico 0 (n0 * n1 * n2 * n3)) := by
  refine ⟨?_, ?_, ?_⟩
  · rintro ⟨a, b, c, d⟩ hq
    simp only [Set.mem_prod, Set.mem_Ico] at hq
    obtain ⟨⟨ha0, ha1⟩, ⟨hb0, hb1⟩, ⟨hc0, hc1⟩, ⟨hd0, hd1⟩⟩ := hq
    have e1 := enc2_nonneg_lt n0 n1 a b ha0 ha1 hb0 hb1
    have e2 := enc2_nonneg_lt (n0 * n1) n2 (a * n1 + b) c e1.1 e1.2 hc0 hc1
    have e3 := enc2_nonneg_lt (n0 * n1 * n2) n3 ((a * n1 + b) * n2 + c) d e2.1 e2.2 hd0 hd1
    simpa [Set.mem_Ico] using e3
  · rintro ⟨a, b, c, d⟩ hp ⟨a', b', c', d'⟩ hq heq
    simp only [Set.mem_prod, Set.mem_Ico] at hp hq
    obtain ⟨⟨ha0, ha1⟩, ⟨hb0, hb1⟩, ⟨hc0, hc1⟩, ⟨hd0, hd1⟩⟩ := hp
    obtain ⟨⟨ha0', ha1'⟩, ⟨hb0', hb1'⟩, ⟨hc0', hc1'⟩, ⟨hd0', hd1'⟩⟩ := hq
    simp only at heq
    have E3 := enc2_inj n3 _ d _ d' hd0 hd1 hd0' hd1' heq
    have E2 := enc2_inj n2 _ c _ c' hc0 hc1 hc0' hc1' E3.1
    have E1 := enc2_inj n1 a b a' b' hb0 hb1 hb0' hb1' E2.1
    simp only [Prod.mk.injEq]
    exact ⟨E1.1, E1.2, E2.2, E3.2⟩
  · intro o ho
    simp only [Set.mem_Ico] at ho
    obtain ⟨ho0, hom⟩ := ho
    obtain ⟨q30, q31, r30, r31, he3⟩ := enc2_decompose (n0 * n1 * n2) n3 o h3 ho0 hom
    obtain ⟨q20, q21, r20, r21, he2⟩ := enc2_decompose (n0 * n1) n2 (o / n3) h2 q30 q31
    obtain ⟨q10, q11, r10, r11, he1⟩ := enc2_decompose n0 n1 (o / n3 / n2) h1 q20 q21
    refine ⟨(o / n3 / n2 / n1, o / n3 / n2 % n1, o / n3 % n2, o % n3), ?_, ?_⟩
    · simp only [Set.mem_prod, Set.mem_Ico]
      exact ⟨⟨q10, q11⟩, ⟨r10, r11⟩, ⟨r20, r21⟩, ⟨r30, r31⟩⟩
    · simp only
      rw [he1, he2, he3]

theorem bijOn_perm_bshd (B H S D : Int) :
    Set.BijOn (fun p : Int × Int × Int × Int => (p.1, p.2.2.1, p.2.1, p.2.2.2))
      (Set.Ico 0 B ×ˢ Set.Ico 0 H ×ˢ Set.Ico 0 S ×ˢ Set.Ico 0 D)
      (Set.Ico 0 B ×ˢ Set.Ico 0 S ×ˢ Set.Ico 0 H ×ˢ Set.Ico 0 D) := by
  refine ⟨?_, ?_, ?_⟩
  · rintro ⟨a, b, c, d⟩ hp
    simp only [Set.mem_prod, Set.mem_Ico] at hp ⊢
    tauto
  · rintro ⟨a, b, c, d⟩ _ ⟨a', b', c', d'⟩ _ heq
    simp only [Prod.mk.injEq] at heq ⊢
    tauto
  · rintro ⟨a, b, c, d⟩ hp
    refine ⟨(a, c, b, d), ?_, rfl⟩
    simp only [Set.mem_prod, Set.mem_Ico] at hp ⊢
    tauto

theorem bijOn_perm_bhds (B H S D : Int) :
    Set.BijOn (fun p : Int × Int × Int × Int => (p.1, p.2.1, p.2.2.2, p.2.2.1))
      (Set.Ico 0 B ×ˢ Set.Ico 0 H ×ˢ Set.Ico 0 S ×ˢ Set.Ico 0 D)
      (Set.Ico 0 B ×ˢ Set.Ico 0 H ×ˢ Set.Ico 0 D ×ˢ Set.Ico 0 S) := by
  refine ⟨?_, ?_, ?_⟩
  · rintro ⟨a, b, c, d⟩ hp
    simp only [Set.mem_prod, Set.mem_Ico] at hp ⊢
    tauto
  · rintro ⟨a, b, c, d⟩ _ ⟨a', b', c', d'⟩ _ heq
    simp only [Prod.mk.injEq] at heq ⊢
    tauto
  · rintro ⟨a, b, c, d⟩ hp
    refine ⟨(a, b, d, c), ?_, rfl⟩
    simp only [Set.mem_prod, Set.mem_Ico] at hp ⊢
    tauto

theorem bijOn_perm_sbhd (B H S D : Int) :
    Set.BijOn (fun p : Int × Int × Int × Int => (p.2.2.1, p.1, p.2.1, p.2.2.2))
      (Set.Ico 0 B ×ˢ Set.Ico 0 H ×ˢ Set.Ico 0 S ×ˢ Set.Ico 0 D)
      (Set.Ico 0 S ×ˢ Set.Ico 0 B ×ˢ Set.Ico 0 H ×ˢ Set.Ico 0 D) := by
  refine ⟨?_, ?_, ?_⟩
  · rintro ⟨a, b, c, d⟩ hp
    simp only [Set.mem_prod, Set.mem_Ico] at hp ⊢
    tauto
  · rintro ⟨a, b, c, d⟩ _ ⟨a', b', c', d'⟩ _ heq
    simp only [Prod.mk.injEq] at heq ⊢
    tauto
  · rintro ⟨a, b, c, d⟩ hp
    refine ⟨(b, c, a, d), ?_, rfl⟩
    simp only [Set.mem_prod, Set.mem_Ico] at hp ⊢
    tauto

/-- C2: for a Plain tensor (no stored master shape or offset vector)
whose `shape_` holds the extents `(B,H,S,D)` in the physical order of
its tag (each layout among `BSHD`, `BHDS`, `SBHD`, all extents at least
1), the map from valid logical index tuples `(b,h,s,d)` to `offset` is a
bijection onto `{0, ..., B*H*S*D - 1}`. -/
theorem offset_bijective (t : Tensor) (B H S D : Int)
    (hoff : t.shape_offset = []) (hmas : t.shape_master = [])
    (htag : t.ctype = BSHD ∨ t.ctype = BHDS ∨ t.ctype = SBHD)
    (hsh : t.shape = physShape t.ctype B H S D)
    (hB : 1 ≤ B) (hH : 1 ≤ H) (hS : 1 ≤ S) (hD : 1 ≤ D) :
    Set.BijOn (fun p : Int × Int × Int × Int => t.offset p.1 p.2.1 p.2.2.1 p.2.2.2)
      (Set.Ico 0 B ×ˢ Set.Ico 0 H ×ˢ Set.Ico 0 S ×ˢ Set.Ico 0 D)
      (Set.Ico 0 (B * H * S * D)) := by
  have hB0 : (0 : Int) < B := by omega
  have hH0 : (0 : Int) < H := by omega
  have hS0 : (0 : Int) < S := by omega
  have hD0 : (0 : Int) < D := by omega
  have hlen : ¬(t.shape_offset.length = 4 ∧ t.shape_master.length = 4) := by
    rw [hoff]
    simp
  rcases htag with hc | hc | hc
  · rw [hc] at hsh
    rw [show B * H * S * D = B * S * H * D from by ring]
    refine Set.BijOn.congr
      (Set.BijOn.comp (enc4_bijOn B S H D hB0 hS0 hH0 hD0) (bijOn_perm_bshd B H S D)) ?_
    intro p _
    simp only [Function.comp, Tensor.offset, hc, hsh, if_neg hlen, physShape,
      List.getD_cons_zero, List.getD_cons_succ]
  · rw [hc] at hsh
    rw [show B * H * S * D = B * H * D * S from by ring]
    refine Set.BijOn.congr
      (Set.BijOn.comp (enc4_bijOn B H D S hB0 hH0 hD0 hS0) (bijOn_perm_bhds B H S D)) ?_
    intro p _
    simp only [Function.comp, Tensor.offset, hc, hsh, if_neg hlen, physShape,
      List.getD_cons_zero, List.getD_cons_succ]
  · rw [hc] at hsh
    rw [show B * H * S * D = S * B * H * D from by ring]
    refine Set.BijOn.congr
      (Set.BijOn.comp (enc4_bijOn S B H D hS0 hB0 hH0 hD0) (bijOn_perm_sbhd B H S D)) ?_
    intro p _
    simp only [Function.comp, Tensor.offset, hc, hsh, if_neg hlen, physShape,
      List.getD_cons_zero, List.getD_cons_succ]

/-- Witness for C2: the offsets of a `BSHD` tensor with extents
`B=2, H=2, S=3, D=2` cover `{0, ..., 23}` bijectively. -/
theorem offset_bijective_witness :
    Set.BijOn (fun p : Int × Int × Int × Int =>
        Tensor.offset { ctype := BSHD, shape := [2, 3, 2, 2], count := 24, capacity := 24 }
          p.1 p.2.1 p.2.2.1 p.2.2.2)
      (Set.Ico 0 2 ×ˢ Set.Ico 0 2 ×ˢ Set.Ico 0 3 ×ˢ Set.Ico 0 2)
      (Set.Ico 0 (2 * 2 * 3 * 2)) :=
  offset_bijective { ctype := BSHD, shape := [2, 3, 2, 2], count := 24, capacity := 24 }
    2 2 3 2 rfl rfl (Or.inl rfl) rfl (by decide) (by decide) (by decide) (by decide)

theorem land_align_mask (k : Nat) (hk : k ≤ 64) (x : Nat) (hx : x < 2 ^ 64) :
    x &&& (2 ^ 64 - 2 ^ k) = 2 ^ k * (x / 2 ^ k) := by
  have hmask : 2 ^ 64 - 2 ^ k = (2 ^ (64 - k) - 1) <<< k := by
    rw [Nat.shiftLeft_eq, Nat.sub_mul, one_mul, ← Nat.pow_add]
    congr 2
    omega
  have hr : 2 ^ k * (x / 2 ^ k) = (x >>> k) <<< k := by
    rw [Nat.shiftLeft_eq, Nat.shiftRight_eq_div_pow, Nat.mul_comm]
  rw [hmask, hr]
  apply Nat.eq_of_testBit_eq
  intro i
  simp only [Nat.testBit_and, Nat.testBit_shiftLeft, Nat.testBit_shiftRight,
    Nat.testBit_two_pow_sub_one]
  by_cases hki : k ≤ i
  · have hadd : k + (i - k) = i := by omega
    by_cases hi64 : i < 64
    · simp [hki, hadd, show i - k < 64 - k by omega]
    · have hbit : x.testBit i = false :=
        Nat.testBit_lt_two_pow
          (lt_of_lt_of_le hx (Nat.pow_le_pow_right (by norm_num) (le_of_not_lt hi64)))
      simp [hki, hadd, hbit]
  · simp [hki]

/-- C7: for a positive size and a power-of-two alignment (and a
successful `malloc` returning `origin`), `SystemMemoryManager::alloc`
over-allocates `size + sizeof(void*) + alignment - 1` bytes and returns
an address that is an exact multiple of the alignment, lies at least one
pointer-word past `origin` (so the hidden word fits in the block), and
whose region fits inside the over-allocated block; the original
unaligned pointer is stored in the word immediately before the returned
region, and `SystemMemoryManager::free` on the returned pointer recovers
exactly `origin` and releases it (no leak). -/
theorem sysAlloc_aligned (size alignment origin k : Nat) (mem : Nat → Nat)
    (_hsz : 0 < size) (_horig : 0 < origin) (hk : alignment = 2 ^ k) (hk64 : k ≤ 64)
    (hfit : origin + ptrBytes + (alignment - 1) < 2 ^ 64) :
    sysAllocRequest size alignment = size + ptrBytes + (alignment - 1) ∧
    sysAlignedPtr origin alignment % alignment = 0 ∧
    origin + ptrBytes ≤ sysAlignedPtr origin alignment ∧
    sysAlignedPtr origin alignment + size ≤ origin + sysAllocRequest size alignment ∧
    sysAllocStore origin alignment mem (sysAlignedPtr origin alignment - ptrBytes) = origin ∧
    sysFree (sysAllocStore origin alignment mem) (sysAlignedPtr origin alignment) = origin := by
  subst hk
  have hpow : 1 ≤ 2 ^ k := Nat.one_le_two_pow
  set x := origin + ptrBytes + (2 ^ k - 1) with hxdef
  have haligned : sysAlignedPtr origin (2 ^ k) = 2 ^ k * (x / 2 ^ k) := by
    unfold sysAlignedPtr
    rw [Nat.mod_eq_of_lt hfit]
    exact land_align_mask k hk64 x hfit
  have hdm : 2 ^ k * (x / 2 ^ k) + x % 2 ^ k = x := Nat.div_add_mod x (2 ^ k)
  have hmlt : x % 2 ^ k < 2 ^ k := Nat.mod_lt x (by omega)
  refine ⟨rfl, ?_, ?_, ?_, ?_, ?_⟩
  · rw [haligned]
    exact Nat.mul_mod_right _ _
  · rw [haligned]
    omega
  · rw [haligned]
    unfold sysAllocRequest
    omega
  · simp [sysAllocStore]
  · simp [sysFree, sysAllocStore]

/-- Witness for C7: `malloc` result 1000, size 5, alignment 16: the
returned pointer 1008 is 16-aligned. -/
theorem sysAlloc_aligned_witness :
    sysAlignedPtr 1000 16 % 16 = 0 :=
  (sysAlloc_aligned 5 16 1000 4 (fun _ => 0) (by decide) (by decide) (by decide)
    (by decide) (by decide)).2.1

end Mllm
